import Mathlib

/-!
Verification of the message-to-decision pipeline of the LLM negotiator
(`negotiator.py`).  Python strings are modelled as `List Char`, Python
values (the JSON universe plus `None`) as `PyVal`, and Python exceptions
that can escape the modelled code as `PyExn`.  The external reasoning
service ("oracle", a network call to the Claude API) is opaque: it is
modelled by an `OracleOutcome` parameter, either an exception raised by
the client call or the raw reply text.
-/

namespace Negotiator

/-- Python values flowing through the pipeline: the JSON universe plus
`None`.  Floats are carried symbolically as their source lexeme: no claim
performs arithmetic on floats, they only pass through parsing. -/
inductive PyVal where
  | none
  | bool (b : Bool)
  | int (n : Int)
  | float (lexeme : List Char)
  | str (s : List Char)
  | list (xs : List PyVal)
  | dict (fields : List (List Char × PyVal))

/-- Python exceptions that the modelled code can raise or catch. -/
inductive PyExn where
  | jsonDecodeError (msg : List Char)
  | attributeError (msg : List Char)
  | typeError (msg : List Char)
deriving DecidableEq

/-- Shorthand turning a Lean string literal into the `List Char` model of
a Python string. -/
def pys (s : String) : List Char := s.toList

/-- Characters stripped by Python's `str.strip()`. -/
def isPySpace (c : Char) : Bool :=
  c = ' ' || c = '\t' || c = '\n' || c = '\r' || c = '\x0b' || c = '\x0c'

/-- Model of Python `str.strip()`. -/
def pyStrip (s : List Char) : List Char :=
  ((s.dropWhile isPySpace).reverse.dropWhile isPySpace).reverse

/-- Index of the first occurrence of `sub` in `s`, if any (the engine
behind Python `str.find` and the `in` operator). -/
def findSub : List Char → List Char → Option Nat
  | [], sub => if sub.isEmpty then some 0 else Option.none
  | c :: cs, sub =>
    if sub.isPrefixOf (c :: cs) then some 0 else (findSub cs sub).map (· + 1)

/-- Model of Python `s.find(sub)`: first index or `-1`. -/
def pyFind (s sub : List Char) : Int :=
  match findSub s sub with
  | some n => Int.ofNat n
  | Option.none => -1

/-- Model of Python `sub in s` (substring containment). -/
def pyIn (sub s : List Char) : Bool := (findSub s sub).isSome

/-- Model of Python `s.find(sub, start)`. -/
def pyFindFrom (s sub : List Char) (start : Nat) : Int :=
  match findSub (s.drop start) sub with
  | some n => Int.ofNat (start + n)
  | Option.none => -1

/-- Model of Python `s.rfind(sub)`: last index of an occurrence or `-1`. -/
def pyRfind (s sub : List Char) : Int :=
  match findSub s.reverse sub.reverse with
  | some n => Int.ofNat (s.length - sub.length - n)
  | Option.none => -1

/-- Model of Python slicing `s[a:b]` with possibly negative bounds. -/
def pySlice (s : List Char) (a b : Int) : List Char :=
  let n : Int := s.length
  let a' := if a < 0 then max (n + a) 0 else min a n
  let b' := if b < 0 then max (n + b) 0 else min b n
  (s.take b'.toNat).drop a'.toNat

/-- Model of Python slicing `s[a:b]` when both bounds are known to be
non-negative (it agrees with `pySlice` there). -/
def natSlice (s : List Char) (a b : Nat) : List Char := (s.take b).drop a

/-! JSON parsing, modelling Python's `json.loads` on the fragment of JSON
that reaches this program: objects, arrays, strings with the standard
escapes, integers, floats (kept symbolic), `true`/`false`/`null`. -/

/-- Whitespace skipped between JSON tokens. -/
def isJsonWs (c : Char) : Bool := c = ' ' || c = '\t' || c = '\n' || c = '\r'

/-- Value of a hex digit, if it is one. -/
def hexVal (c : Char) : Option Nat :=
  if '0' ≤ c ∧ c ≤ '9' then some (c.toNat - '0'.toNat)
  else if 'a' ≤ c ∧ c ≤ 'f' then some (c.toNat - 'a'.toNat + 10)
  else if 'A' ≤ c ∧ c ≤ 'F' then some (c.toNat - 'A'.toNat + 10)
  else Option.none

/-- Parse the body of a JSON string (the opening quote already consumed),
returning the decoded characters and the rest of the input. -/
def pJStr : List Char → List Char → Option (List Char × List Char)
  | [], _ => Option.none
  | '"' :: rest, acc => some (acc.reverse, rest)
  | '\\' :: e :: rest, acc =>
    if e = '"' then pJStr rest ('"' :: acc)
    else if e = '\\' then pJStr rest ('\\' :: acc)
    else if e = '/' then pJStr rest ('/' :: acc)
    else if e = 'b' then pJStr rest ('\x08' :: acc)
    else if e = 'f' then pJStr rest ('\x0c' :: acc)
    else if e = 'n' then pJStr rest ('\n' :: acc)
    else if e = 'r' then pJStr rest ('\r' :: acc)
    else if e = 't' then pJStr rest ('\t' :: acc)
    else if e = 'u' then
      match rest with
      | a :: b :: c :: d :: rest' =>
        match hexVal a, hexVal b, hexVal c, hexVal d with
        | some x, some y, some z, some w =>
          pJStr rest' (Char.ofNat (((x * 16 + y) * 16 + z) * 16 + w) :: acc)
        | _, _, _, _ => Option.none
      | _ => Option.none
    else Option.none
  | c :: rest, acc => if c.toNat < 32 then Option.none else pJStr rest (c :: acc)

/-- Digits to the natural number they denote. -/
def digitsVal (ds : List Char) : Nat :=
  ds.foldl (fun acc c => acc * 10 + (c.toNat - '0'.toNat)) 0

/-- Exponent part of a JSON number after the `e`/`E`, returning the
consumed lexeme and the rest, or nothing consumed when it is not a valid
exponent (matching the maximal-munch regex of Python's json scanner). -/
def expPart (e : Char) (t fallback : List Char) : List Char × List Char :=
  let sg : List Char := match t with
    | '+' :: _ => ['+']
    | '-' :: _ => ['-']
    | _ => []
  let u := match t with
    | '+' :: u => u
    | '-' :: u => u
    | _ => t
  let ds := u.takeWhile Char.isDigit
  if ds.isEmpty then ([], fallback) else (e :: (sg ++ ds), u.dropWhile Char.isDigit)

/-- Parse a JSON number with Python's maximal-munch number regex:
`-?(0|[1-9]\d*)` with optional fraction and exponent.  Integers become
`PyVal.int`; anything with a fraction or exponent stays a symbolic
`PyVal.float` lexeme. -/
def pJNum (s : List Char) : Option (PyVal × List Char) :=
  let sgn : List Char := match s with | '-' :: _ => ['-'] | _ => []
  let s1 := match s with | '-' :: r => r | _ => s
  let ip := s1.takeWhile Char.isDigit
  let r1 := s1.dropWhile Char.isDigit
  if ip.isEmpty then Option.none
  else if 1 < ip.length ∧ ip.headD ' ' = '0' then Option.none
  else
    let fr : List Char :=
      match r1 with
      | '.' :: t => if (t.takeWhile Char.isDigit).isEmpty then [] else '.' :: t.takeWhile Char.isDigit
      | _ => []
    let r2 := match r1 with
      | '.' :: t => if (t.takeWhile Char.isDigit).isEmpty then r1 else t.dropWhile Char.isDigit
      | _ => r1
    let exr : List Char × List Char :=
      match r2 with
      | 'e' :: t => expPart 'e' t r2
      | 'E' :: t => expPart 'E' t r2
      | _ => ([], r2)
    if fr.isEmpty ∧ exr.1.isEmpty then
      some (PyVal.int (if sgn.isEmpty then Int.ofNat (digitsVal ip) else -Int.ofNat (digitsVal ip)), r1)
    else some (PyVal.float (sgn ++ ip ++ fr ++ exr.1), exr.2)

/-- Insert a key into an object under construction with Python dict
semantics: a duplicate key keeps its position and takes the new value. -/
def insertKey (fs : List (List Char × PyVal)) (k : List Char) (v : PyVal) :
    List (List Char × PyVal) :=
  match fs with
  | [] => [(k, v)]
  | (k', v') :: rest => if k' = k then (k', v) :: rest else (k', v') :: insertKey rest k v

mutual

/-- Parse one JSON value (fuel-indexed recursion). -/
def pJVal : Nat → List Char → Option (PyVal × List Char)
  | 0, _ => Option.none
  | fuel + 1, s =>
    match s.dropWhile isJsonWs with
    | [] => Option.none
    | '{' :: rest =>
      match rest.dropWhile isJsonWs with
      | '}' :: rest' => some (PyVal.dict [], rest')
      | _ => pJMembers fuel rest []
    | '[' :: rest =>
      match rest.dropWhile isJsonWs with
      | ']' :: rest' => some (PyVal.list [], rest')
      | _ => pJElems fuel rest []
    | '"' :: rest => (pJStr rest []).map (fun p => (PyVal.str p.1, p.2))
    | 't' :: rest =>
      if (pys "rue").isPrefixOf rest then some (PyVal.bool true, rest.drop 3) else Option.none
    | 'f' :: rest =>
      if (pys "alse").isPrefixOf rest then some (PyVal.bool false, rest.drop 4) else Option.none
    | 'n' :: rest =>
      if (pys "ull").isPrefixOf rest then some (PyVal.none, rest.drop 3) else Option.none
    | c :: rest => pJNum (c :: rest)

/-- Parse the members of a JSON object (after the opening `{`, no
immediate `}`). -/
def pJMembers : Nat → List Char → List (List Char × PyVal) →
    Option (PyVal × List Char)
  | 0, _, _ => Option.none
  | fuel + 1, s, acc =>
    match s.dropWhile isJsonWs with
    | '"' :: rest =>
      match pJStr rest [] with
      | some (k, r1) =>
        match r1.dropWhile isJsonWs with
        | ':' :: r2 =>
          match pJVal fuel r2 with
          | some (v, r3) =>
            match r3.dropWhile isJsonWs with
            | ',' :: r4 => pJMembers fuel r4 (insertKey acc k v)
            | '}' :: r4 => some (PyVal.dict (insertKey acc k v), r4)
            | _ => Option.none
          | Option.none => Option.none
        | _ => Option.none
      | Option.none => Option.none
    | _ => Option.none

/-- Parse the elements of a JSON array (after the opening `[`, no
immediate `]`). -/
def pJElems : Nat → List Char → List PyVal → Option (PyVal × List Char)
  | 0, _, _ => Option.none
  | fuel + 1, s, acc =>
    match pJVal fuel s with
    | some (v, r1) =>
      match r1.dropWhile isJsonWs with
      | ',' :: r2 => pJElems fuel r2 (acc ++ [v])
      | ']' :: r2 => some (PyVal.list (acc ++ [v]), r2)
      | _ => Option.none
    | Option.none => Option.none

end

/-- Model of Python `json.loads` as a total function: `some` on success,
`Option.none` where the library raises `json.JSONDecodeError`. -/
def jsonLoadsOpt (s : List Char) : Option PyVal :=
  match pJVal (2 * s.length + 2) s with
  | some (v, rest) => if (rest.dropWhile isJsonWs).isEmpty then some v else Option.none
  | Option.none => Option.none

/-- Text of the exception a failed `json.loads` raises; the library's
position-bearing message is abstracted to a fixed token (no claim depends
on its exact wording). -/
def jsonDecodeMessage : List Char := pys "Expecting value"

/-- Exception-level model of `json.loads`: raises `JSONDecodeError` where
the library does. -/
def json_loads (s : List Char) : Except PyExn PyVal :=
  match jsonLoadsOpt s with
  | some v => Except.ok v
  | Option.none => Except.error (PyExn.jsonDecodeError jsonDecodeMessage)

/-! Python runtime helpers for the dict operations the source uses. -/

/-- Name of a Python value's type, for exception messages. -/
def typeName : PyVal → List Char
  | PyVal.none => pys "NoneType"
  | PyVal.bool _ => pys "bool"
  | PyVal.int _ => pys "int"
  | PyVal.float _ => pys "float"
  | PyVal.str _ => pys "str"
  | PyVal.list _ => pys "list"
  | PyVal.dict _ => pys "dict"

/-- Key lookup in a dict's field list (keys are unique by construction,
see `insertKey`). -/
def lookupKey (fs : List (List Char × PyVal)) (k : List Char) : Option PyVal :=
  match fs with
  | [] => Option.none
  | (k', v) :: rest => if k' = k then some v else lookupKey rest k

/-- Model of Python `k in d` for a dict `d`. -/
def hasKey (fs : List (List Char × PyVal)) (k : List Char) : Bool :=
  (lookupKey fs k).isSome

/-- Model of Python `v.get(k, default)`: dictionaries look the key up,
every other type in our universe lacks the attribute and raises. -/
def pyGet (v : PyVal) (k : List Char) (default : PyVal) : Except PyExn PyVal :=
  match v with
  | PyVal.dict fs => Except.ok ((lookupKey fs k).getD default)
  | other => Except.error (PyExn.attributeError
      (pys "'" ++ typeName other ++ pys "' object has no attribute 'get'"))

mutual

/-- Model of Python `repr` (simplified: string reprs are wrapped in single
quotes without escape handling; float reprs reuse the stored lexeme).
Only reachable through `pyStr` in f-string interpolation. -/
def pyRepr : PyVal → List Char
  | PyVal.none => pys "None"
  | PyVal.bool b => if b then pys "True" else pys "False"
  | PyVal.int n => (toString n).toList
  | PyVal.float lx => lx
  | PyVal.str s => '\'' :: (s ++ ['\''])
  | PyVal.list xs => '[' :: (pyReprList xs ++ [']'])
  | PyVal.dict fs => '{' :: (pyReprFields fs ++ ['}'])

/-- Comma-joined reprs of list elements. -/
def pyReprList : List PyVal → List Char
  | [] => []
  | [x] => pyRepr x
  | x :: y :: rest => pyRepr x ++ pys ", " ++ pyReprList (y :: rest)

/-- Comma-joined reprs of dict entries. -/
def pyReprFields : List (List Char × PyVal) → List Char
  | [] => []
  | [(k, v)] => pyRepr (PyVal.str k) ++ pys ": " ++ pyRepr v
  | (k, v) :: e :: rest =>
    pyRepr (PyVal.str k) ++ pys ": " ++ pyRepr v ++ pys ", " ++ pyReprFields (e :: rest)

end

/-- Model of Python `str()` as used by f-string interpolation. -/
def pyStr (v : PyVal) : List Char :=
  match v with
  | PyVal.str s => s
  | other => pyRepr other

/-! Translations of the functions of `negotiator.py`. -/

/-- The brace-matching loop of `parse_game_state` (lines 43-52), running
over the text from the first `\x7b`: returns the offset one past the
character where the nesting depth returns to 0, or nothing when the loop
exhausts the text without the depth reaching 0 (in which case Python
leaves `end` at `start`). -/
def scanEnd : List Char → Int → Option Nat
  | [], _ => Option.none
  | c :: cs, depth =>
    if c = '{' then (scanEnd cs (depth + 1)).map (· + 1)
    else if c = '}' then
      if depth - 1 = 0 then some 1
      else (scanEnd cs (depth - 1)).map (· + 1)
    else (scanEnd cs depth).map (· + 1)

/-- Candidate payload selected by `parse_game_state` (lines 34-55): a
labeled fenced block if one exists, else the depth-balanced object from
the first `\x7b`, else nothing.  In the fenced branch the closing-fence
`find` can return `-1`, reproduced by the signed `pySlice`; in the bare
branch both slice bounds are non-negative, so `natSlice` coincides with
Python slicing there. -/
def extract_candidate (message_text : List Char) : Option (List Char) :=
  if pyIn (pys "```json") message_text then
    some (pyStrip (pySlice message_text (pyFind message_text (pys "```json") + 7)
      (pyFindFrom message_text (pys "```") (pyFind message_text (pys "```json") + 7).toNat)))
  else if pyIn (pys "\x7b") message_text then
    some (natSlice message_text (pyFind message_text (pys "\x7b")).toNat
      (match scanEnd (message_text.drop (pyFind message_text (pys "\x7b")).toNat) 0 with
       | some k => (pyFind message_text (pys "\x7b")).toNat + k
       | Option.none => (pyFind message_text (pys "\x7b")).toNat))
  else Option.none

/-- Translation of `parse_game_state` (lines 31-59): extract the
candidate payload, `json.loads` it, and catch
`(json.JSONDecodeError, ValueError)` — the only exception the body can
raise — returning the empty dict. -/
def parse_game_state (message_text : List Char) : Except PyExn PyVal :=
  let body : Except PyExn PyVal :=
    match extract_candidate message_text with
    | Option.none => Except.ok (PyVal.dict [])
    | some json_str => json_loads json_str
  match body with
  | Except.error (PyExn.jsonDecodeError _) => Except.ok (PyVal.dict [])
  | other => other

/-- Translation of `get_action_type` (lines 62-68). -/
def get_action_type (message_text : List Char) : List Char :=
  if pyIn (pys "Action: PROPOSE") message_text then pys "PROPOSE"
  else if pyIn (pys "Action: ACCEPT_OR_REJECT") message_text then pys "ACCEPT_OR_REJECT"
  else pys "UNKNOWN"

/-- Outcome of the opaque oracle invocation inside `call_claude`'s try
block: either the client call raised (network/service/credential fault)
or it returned a reply whose text is `text`. -/
inductive OracleOutcome where
  | exn (msg : List Char)
  | reply (text : List Char)

/-- Translation of the reply-parsing half of `call_claude` (lines
116-128) on the already-stripped reply text, including the enclosing
`except` that converts a `json.loads` failure into a failure
descriptor. -/
def parse_reply_text (response_text : List Char) : PyVal :=
  if (pys "\x7b").isPrefixOf response_text then
    match jsonLoadsOpt response_text with
    | some v => v
    | Option.none => PyVal.dict [(pys "error", PyVal.str jsonDecodeMessage)]
  else if pyIn (pys "\x7b") response_text then
    match jsonLoadsOpt (natSlice response_text (pyFind response_text (pys "\x7b")).toNat
        ((pyRfind response_text (pys "\x7d") + 1).toNat)) with
    | some v => v
    | Option.none => PyVal.dict [(pys "error", PyVal.str jsonDecodeMessage)]
  else
    PyVal.dict [(pys "error", PyVal.str (pys "Could not parse Claude response")),
                (pys "raw", PyVal.str response_text)]

/-- Line 114: the reply is stripped before the parsing policy runs. -/
def parse_oracle_reply (text : List Char) : PyVal :=
  parse_reply_text (pyStrip text)

/-- Translation of `call_claude` (lines 71-128).  The prompt text built
from the `get` calls is consumed only by the opaque oracle, so its
characters are not retained; the `get` calls themselves are kept because
they run outside the try block and raise `AttributeError` on non-dict
receivers.  Exceptions inside the try block (the client call) are caught
and become `\x7b"error": str(e)\x7d`. -/
def call_claude (oracle : OracleOutcome) (game_state : PyVal)
    (action_type : List Char) : Except PyExn PyVal := do
  let _ ← pyGet game_state (pys "valuations_self") (PyVal.str (pys "unknown"))
  let _ ← pyGet game_state (pys "batna_self") (PyVal.str (pys "unknown"))
  let _ ← pyGet game_state (pys "quantities") (PyVal.str (pys "unknown"))
  let _ ← pyGet game_state (pys "discount") (PyVal.float (pys "0.98"))
  let _ ← pyGet game_state (pys "round") (PyVal.int 1)
  let _ ← pyGet game_state (pys "role") (PyVal.str (pys "unknown"))
  if action_type = pys "ACCEPT_OR_REJECT" then
    let offer ← pyGet game_state (pys "current_offer") (PyVal.dict [])
    let _ ← pyGet offer (pys "allocation_self") (PyVal.str (pys "unknown"))
    let _ ← pyGet offer (pys "allocation_other") (PyVal.str (pys "unknown"))
    pure ()
  else
    pure ()
  match oracle with
  | OracleOutcome.exn e => pure (PyVal.dict [(pys "error", PyVal.str e)])
  | OracleOutcome.reply text => pure (parse_oracle_reply text)

/-- One step of the fallback comprehension `[q // 2 for q in quantities]`
(line 155): Python floor division, with `bool` counting as an int subtype
and every other element type raising `TypeError`.  (A float element would
floor-divide in Python; floats are symbolic here and cannot occur in the
claims' inputs.) -/
def pyHalve (v : PyVal) : Except PyExn Int :=
  match v with
  | PyVal.int n => Except.ok (Int.fdiv n 2)
  | PyVal.bool b => Except.ok (Int.fdiv (if b then 1 else 0) 2)
  | other => Except.error (PyExn.typeError
      (pys "unsupported operand type(s) for //: '" ++ typeName other ++ pys "' and 'int'"))

/-- One step of `[q - h for q, h in zip(quantities, half)]` (line 156). -/
def pySubHalf (q : PyVal) (h : Int) : Except PyExn Int :=
  match q with
  | PyVal.int n => Except.ok (n - h)
  | PyVal.bool b => Except.ok ((if b then 1 else 0) - h)
  | other => Except.error (PyExn.typeError
      (pys "unsupported operand type(s) for -: '" ++ typeName other ++ pys "' and 'int'"))

/-- Iterating `quantities` in the fallback comprehensions: lists yield
their elements; every other type either is not iterable or yields items
that fail the arithmetic, so Python raises `TypeError` either way,
collapsed here to the direct error. -/
def iterItems (v : PyVal) : Except PyExn (List PyVal) :=
  match v with
  | PyVal.list xs => Except.ok xs
  | other => Except.error (PyExn.typeError
      (pys "'" ++ typeName other ++ pys "' object is not iterable"))

/-- Left-to-right effectful map, modelling a Python list comprehension
over `Except`-raising element operations. -/
def mapME {α β : Type} (f : α → Except PyExn β) : List α → Except PyExn (List β)
  | [] => Except.ok []
  | x :: xs => do
    let y ← f x
    let ys ← mapME f xs
    pure (y :: ys)

/-- The decision returned for an unrecognized action (line 145). -/
def unknownDecision : PyVal :=
  PyVal.dict [(pys "error", PyVal.str (pys "Unknown action type")),
              (pys "action", PyVal.str (pys "WALK"))]

/-- Tail of `handle_negotiation_message` (lines 150-169) once the oracle
result is known to be a dict with fields `fs`: fall back on an `error`
key, otherwise pass the result through unchanged. -/
def guarantor (game_state : PyVal) (action_type : List Char)
    (fs : List (List Char × PyVal)) : Except PyExn PyVal :=
  if hasKey fs (pys "error") then
    if action_type = pys "PROPOSE" then do
      let quantities ← pyGet game_state (pys "quantities")
          (PyVal.list [PyVal.int 1, PyVal.int 1, PyVal.int 1])
      let items ← iterItems quantities
      let half ← mapME pyHalve items
      let other ← mapME (fun qh => pySubHalf qh.1 qh.2) (items.zip half)
      pure (PyVal.dict
        [(pys "allocation_self", PyVal.list (half.map PyVal.int)),
         (pys "allocation_other", PyVal.list (other.map PyVal.int)),
         (pys "reason", PyVal.str (pys "Fallback proposal due to error: " ++
           pyStr ((lookupKey fs (pys "error")).getD (PyVal.str (pys "unknown")))))])
    else
      pure (PyVal.dict
        [(pys "accept", PyVal.bool false),
         (pys "reason", PyVal.str (pys "Fallback rejection due to error: " ++
           pyStr ((lookupKey fs (pys "error")).getD (PyVal.str (pys "unknown")))))])
  else
    pure (PyVal.dict fs)

/-- Translation of `handle_negotiation_message` (lines 131-169).  The
final `"error" in result` test is modelled on the dict shape; `result` is
always a dict (lemma `call_claude_result_dict` below), so the non-dict
arm is unreachable and is passed through. -/
def handle_negotiation_message (oracle : OracleOutcome)
    (message_text : List Char) : Except PyExn PyVal := do
  let action_type := get_action_type message_text
  let game_state ← parse_game_state message_text
  if action_type = pys "UNKNOWN" then
    pure unknownDecision
  else do
    let result ← call_claude oracle game_state action_type
    match result with
    | PyVal.dict fs => guarantor game_state action_type fs
    | other => pure other

/-! Spec-side definitions, written from the specification's words, to be
compared with the translations above. -/

/-- Spec-side depth condition behind claim C6 ("scan forward from the
first opening brace, tracking nesting depth; the payload ends at the
character where depth first returns to 0"): after the opening brace the
running depth stays strictly positive and first returns to zero exactly
at the last character. -/
def depthStep (c : Char) (d : Int) : Int :=
  if c = '{' then d + 1 else if c = '}' then d - 1 else d

def balAux : List Char → Int → Bool
  | [], _ => false
  | c :: cs, d =>
    if cs.isEmpty then decide (depthStep c d = 0)
    else decide (0 < depthStep c d) && balAux cs (depthStep c d)

/-- Spec-side notion of a balanced brace-delimited object. -/
def balancedObj : List Char → Bool
  | '{' :: t => balAux t 1
  | _ => false

/-- Structural shape required of a PROPOSE decision (spec §3/§6). -/
def isProposeShaped (v : PyVal) : Bool :=
  match v with
  | PyVal.dict fs =>
    hasKey fs (pys "allocation_self") && hasKey fs (pys "allocation_other") &&
      hasKey fs (pys "reason")
  | _ => false

/-- Structural shape required of an ACCEPT_OR_REJECT decision. -/
def isVerdictShaped (v : PyVal) : Bool :=
  match v with
  | PyVal.dict fs => hasKey fs (pys "accept") && hasKey fs (pys "reason")
  | _ => false

/-! Generic lemmas about the `Except` plumbing and the string helpers. -/

@[simp]
theorem ok_bind {α β : Type} (a : α) (f : α → Except PyExn β) :
    (Except.ok a >>= f : Except PyExn β) = f a := rfl

@[simp]
theorem error_bind {α β : Type} (e : PyExn) (f : α → Except PyExn β) :
    (Except.error e >>= f : Except PyExn β) = Except.error e := rfl

@[simp]
theorem pure_eq_ok {α : Type} (a : α) : (pure a : Except PyExn α) = Except.ok a := rfl

theorem findSub_cons_of_forall_ne (a : List Char) (c : Char) (b : List Char)
    (h : ∀ x ∈ a, x ≠ c) : findSub (a ++ c :: b) [c] = some a.length := by
  induction a with
  | nil => simp [findSub, List.isPrefixOf]
  | cons x a ih =>
    have hx : x ≠ c := h x (by simp)
    have hrest : ∀ y ∈ a, y ≠ c := fun y hy => h y (by simp [hy])
    simp [findSub, List.isPrefixOf, hx, Ne.symm hx, ih hrest]

theorem isPrefixOf_self (b : List Char) : b.isPrefixOf b = true := by
  induction b with
  | nil => simp [List.isPrefixOf]
  | cons c cs ih => simp [List.isPrefixOf, ih]

theorem findSub_self_append (a b : List Char) : (findSub (a ++ b) b).isSome = true := by
  induction a with
  | nil =>
    cases b with
    | nil => simp [findSub]
    | cons c cs => simp [findSub, isPrefixOf_self]
  | cons x a ih =>
    by_cases hp : b.isPrefixOf (x :: (a ++ b)) = true
    · simp [findSub, hp]
    · simp only [List.cons_append, findSub, hp, Bool.false_eq_true, if_false]
      cases hs : findSub (a ++ b) b with
      | none => rw [hs] at ih; simp at ih
      | some n => split <;> simp

theorem pyIn_append_self (a b : List Char) : pyIn b (a ++ b) = true := by
  simp [pyIn, findSub_self_append]

theorem findSub_isPrefixOf_drop (s sub : List Char) (i : Nat)
    (h : findSub s sub = some i) : sub.isPrefixOf (s.drop i) = true := by
  induction s generalizing i with
  | nil =>
    by_cases he : sub.isEmpty
    · simp [findSub, he] at h
      subst h
      cases sub with
      | nil => simp [List.isPrefixOf]
      | cons c cs => simp [List.isEmpty] at he
    · simp [findSub, he] at h
  | cons c cs ih =>
    by_cases hp : sub.isPrefixOf (c :: cs) = true
    · simp [findSub, hp] at h
      subst h
      simpa using hp
    · simp only [findSub, hp, Bool.false_eq_true, if_false] at h
      cases hs : findSub cs sub with
      | none => rw [hs] at h; simp at h
      | some j =>
        rw [hs] at h
        simp at h
        subst h
        simpa using ih j hs

theorem ofNat_eq_cast (n : Nat) : Int.ofNat n = (n : Int) := rfl

theorem natSlice_of_append (x y z : List Char) :
    natSlice (x ++ y ++ z) x.length (x.length + y.length) = y := by
  have h1 : (x ++ y ++ z).take (x.length + y.length) = x ++ y := by
    have := @List.take_left' Char (x ++ y) z (x.length + y.length) (by simp)
    simpa [List.append_assoc] using this
  have h2 : (x ++ y).drop x.length = y := List.drop_left x y
  simp only [natSlice, ← List.append_assoc, h1, h2]

theorem pySlice_of_append (x y z : List Char) :
    pySlice (x ++ y ++ z) (Int.ofNat x.length) (Int.ofNat (x.length + y.length)) = y := by
  have hxn : ¬ (Int.ofNat x.length < 0) := by
    simp [ofNat_eq_cast]
  have hyn : ¬ (Int.ofNat (x.length + y.length) < 0) := by
    simp only [ofNat_eq_cast, not_lt]
    push_cast
    omega
  have hmin1 : min (Int.ofNat x.length) ((((x ++ y ++ z).length : Nat)) : Int) =
      Int.ofNat x.length := by
    simp only [ofNat_eq_cast, List.length_append, min_eq_left_iff]
    push_cast
    omega
  have hmin2 : min (Int.ofNat (x.length + y.length)) ((((x ++ y ++ z).length : Nat)) : Int) =
      Int.ofNat (x.length + y.length) := by
    simp only [ofNat_eq_cast, List.length_append, min_eq_left_iff]
    push_cast
    omega
  simp only [pySlice, hxn, hyn, if_false, hmin1, hmin2, Int.toNat_ofNat]
  exact natSlice_of_append x y z

theorem scanEnd_cons (c : Char) (cs : List Char) (d : Int) :
    scanEnd (c :: cs) d =
      (if c = '{' then (scanEnd cs (d + 1)).map (· + 1)
       else if c = '}' then
         if d - 1 = 0 then some 1 else (scanEnd cs (d - 1)).map (· + 1)
       else (scanEnd cs d).map (· + 1)) := rfl

theorem scanEnd_of_balAux (t : List Char) : ∀ (d : Int) (rest : List Char),
    balAux t d = true → 0 < d → scanEnd (t ++ rest) d = some t.length := by
  induction t with
  | nil => intro d rest hbal _; simp [balAux] at hbal
  | cons c cs ih =>
    intro d rest hbal hd
    rw [List.cons_append, scanEnd_cons]
    by_cases h1 : c = '{'
    · have hstep : depthStep c d = d + 1 := by simp [depthStep, h1]
      by_cases hcs : cs = []
      · subst hcs
        rw [balAux] at hbal
        simp only [List.isEmpty_nil, if_true, hstep, decide_eq_true_eq] at hbal
        omega
      · have hcs' : cs.isEmpty = false := by cases cs <;> simp_all
        rw [balAux] at hbal
        simp only [hcs', Bool.false_eq_true, if_false, hstep, Bool.and_eq_true,
          decide_eq_true_eq] at hbal
        obtain ⟨hpos, hrec⟩ := hbal
        simp [h1, ih (d + 1) rest hrec hpos]
    · by_cases h2 : c = '}'
      · have hstep : depthStep c d = d - 1 := by simp [depthStep, h1, h2]
        by_cases hcs : cs = []
        · subst hcs
          rw [balAux] at hbal
          simp only [List.isEmpty_nil, if_true, hstep, decide_eq_true_eq] at hbal
          simp [h1, h2, hbal]
        · have hcs' : cs.isEmpty = false := by cases cs <;> simp_all
          rw [balAux] at hbal
          simp only [hcs', Bool.false_eq_true, if_false, hstep, Bool.and_eq_true,
            decide_eq_true_eq] at hbal
          obtain ⟨hpos, hrec⟩ := hbal
          have hne : ¬ (d - 1 = 0) := by omega
          simp [h1, h2, hne, ih (d - 1) rest hrec hpos]
      · have hstep : depthStep c d = d := by simp [depthStep, h1, h2]
        by_cases hcs : cs = []
        · subst hcs
          rw [balAux] at hbal
          simp only [List.isEmpty_nil, if_true, hstep, decide_eq_true_eq] at hbal
          omega
        · have hcs' : cs.isEmpty = false := by cases cs <;> simp_all
          rw [balAux] at hbal
          simp only [hcs', Bool.false_eq_true, if_false, hstep, Bool.and_eq_true,
            decide_eq_true_eq] at hbal
          obtain ⟨hpos, hrec⟩ := hbal
          simp [h1, h2, ih d rest hrec hpos]

theorem scanEnd_of_balancedObj (t suf : List Char)
    (h : balancedObj ('{' :: t) = true) :
    scanEnd ('{' :: (t ++ suf)) 0 = some (t.length + 1) := by
  have hb : balAux t 1 = true := by simpa [balancedObj] using h
  simp [scanEnd, scanEnd_of_balAux t 1 suf hb (by omega)]

theorem parse_game_state_ok (s : List Char) :
    ∃ v, parse_game_state s = Except.ok v := by
  cases hc : extract_candidate s with
  | none => exact ⟨PyVal.dict [], by simp [parse_game_state, hc]⟩
  | some c =>
    cases hj : jsonLoadsOpt c with
    | none => exact ⟨PyVal.dict [], by simp [parse_game_state, json_loads, hc, hj]⟩
    | some v => exact ⟨v, by simp [parse_game_state, json_loads, hc, hj]⟩

theorem pJMembers_dict (fuel : Nat) : ∀ (s : List Char)
    (acc : List (List Char × PyVal)) (v : PyVal) (r : List Char),
    pJMembers fuel s acc = some (v, r) → ∃ fs, v = PyVal.dict fs := by
  induction fuel with
  | zero => intro s acc v r h; simp [pJMembers] at h
  | succ fuel ih =>
    intro s acc v r h
    unfold pJMembers at h
    repeat' split at h
    all_goals
      first
      | exact ih _ _ _ _ h
      | (simp at h; exact ⟨_, h.1.symm⟩)
      | simp at h

theorem pJVal_obj (fuel : Nat) (t : List Char) (v : PyVal) (r : List Char)
    (h : pJVal fuel ('{' :: t) = some (v, r)) : ∃ fs, v = PyVal.dict fs := by
  cases fuel with
  | zero => simp [pJVal] at h
  | succ fuel =>
    unfold pJVal at h
    rw [List.dropWhile_cons] at h
    simp only [show isJsonWs '{' = false from rfl, Bool.false_eq_true, if_false] at h
    split at h
    · simp at h
      exact ⟨[], h.1.symm⟩
    · exact pJMembers_dict fuel t [] v r h

theorem jsonLoadsOpt_obj (t : List Char) (v : PyVal)
    (h : jsonLoadsOpt ('{' :: t) = some v) : ∃ fs, v = PyVal.dict fs := by
  unfold jsonLoadsOpt at h
  cases hp : pJVal (2 * ('{' :: t).length + 2) ('{' :: t) with
  | none => rw [hp] at h; simp at h
  | some p =>
    obtain ⟨v', rest⟩ := p
    rw [hp] at h
    simp at h
    obtain ⟨-, hv⟩ := h
    subst hv
    exact pJVal_obj _ _ _ _ hp

theorem isPrefixOf_brace_shape (t : List Char)
    (h : (pys "\x7b").isPrefixOf t = true) : ∃ t', t = '{' :: t' := by
  cases t with
  | nil => simp [pys, List.isPrefixOf] at h
  | cons c cs =>
    simp [pys, List.isPrefixOf] at h
    exact ⟨cs, by rw [h]⟩

theorem parse_reply_text_dict (t : List Char) :
    ∃ fs, parse_reply_text t = PyVal.dict fs := by
  unfold parse_reply_text
  by_cases h1 : (pys "\x7b").isPrefixOf t = true
  · obtain ⟨t', ht'⟩ := isPrefixOf_brace_shape t h1
    rw [if_pos h1, ht']
    cases hj : jsonLoadsOpt ('{' :: t') with
    | none => exact ⟨[(pys "error", PyVal.str jsonDecodeMessage)], rfl⟩
    | some v =>
      obtain ⟨fs, hfs⟩ := jsonLoadsOpt_obj t' v hj
      exact ⟨fs, hfs⟩
  · rw [if_neg h1]
    by_cases h2 : pyIn (pys "\x7b") t = true
    · rw [if_pos h2]
      have hfsome : ∃ i, findSub t (pys "\x7b") = some i := by
        cases hf : findSub t (pys "\x7b") with
        | none => rw [pyIn, hf] at h2; simp at h2
        | some i => exact ⟨i, rfl⟩
      obtain ⟨i, hf⟩ := hfsome
      have hstart : (pyFind t (pys "\x7b")).toNat = i := by simp [pyFind, hf]
      have hdropPre : (pys "\x7b").isPrefixOf (t.drop i) = true :=
        findSub_isPrefixOf_drop _ _ _ hf
      obtain ⟨rest, hdrop⟩ := isPrefixOf_brace_shape _ hdropPre
      rw [hstart]
      rcases le_or_lt ((pyRfind t (pys "\x7d") + 1).toNat) i with hle | hlt
      · have hempty : natSlice t i ((pyRfind t (pys "\x7d") + 1).toNat) = [] := by
          unfold natSlice
          apply List.drop_eq_nil_of_le
          calc (t.take ((pyRfind t (pys "\x7d") + 1).toNat)).length
              ≤ (pyRfind t (pys "\x7d") + 1).toNat := by simp [List.length_take]
            _ ≤ i := hle
        rw [hempty]
        exact ⟨[(pys "error", PyVal.str jsonDecodeMessage)], rfl⟩
      · have hslice : natSlice t i ((pyRfind t (pys "\x7d") + 1).toNat) =
            '{' :: rest.take ((pyRfind t (pys "\x7d") + 1).toNat - i - 1) := by
          have hSi : i + ((pyRfind t (pys "\x7d") + 1).toNat - i) =
              (pyRfind t (pys "\x7d") + 1).toNat := by omega
          have hsucc : (pyRfind t (pys "\x7d") + 1).toNat - i =
              ((pyRfind t (pys "\x7d") + 1).toNat - i - 1) + 1 := by omega
          calc natSlice t i ((pyRfind t (pys "\x7d") + 1).toNat)
              = (t.take (i + ((pyRfind t (pys "\x7d") + 1).toNat - i))).drop i := by
                rw [hSi]; rfl
            _ = (t.drop i).take ((pyRfind t (pys "\x7d") + 1).toNat - i) :=
                (List.take_drop i _ _).symm
            _ = ('{' :: rest).take ((pyRfind t (pys "\x7d") + 1).toNat - i) := by rw [hdrop]
            _ = '{' :: rest.take ((pyRfind t (pys "\x7d") + 1).toNat - i - 1) := by
                conv_lhs => rw [hsucc]
                rw [List.take_succ_cons]
        rw [hslice]
        cases hj : jsonLoadsOpt
            ('{' :: rest.take ((pyRfind t (pys "\x7d") + 1).toNat - i - 1)) with
        | none => exact ⟨[(pys "error", PyVal.str jsonDecodeMessage)], rfl⟩
        | some v =>
          obtain ⟨fs, hfs⟩ := jsonLoadsOpt_obj _ v hj
          exact ⟨fs, hfs⟩
    · rw [if_neg h2]
      exact ⟨_, rfl⟩

theorem parse_oracle_reply_dict (text : List Char) :
    ∃ fs, parse_oracle_reply text = PyVal.dict fs := by
  unfold parse_oracle_reply
  exact parse_reply_text_dict (pyStrip text)

/-- The value delivered by the oracle branch of `call_claude`. -/
def oracle_result (oracle : OracleOutcome) : PyVal :=
  match oracle with
  | OracleOutcome.exn e => PyVal.dict [(pys "error", PyVal.str e)]
  | OracleOutcome.reply text => parse_oracle_reply text

theorem oracle_result_dict (oracle : OracleOutcome) :
    ∃ fs, oracle_result oracle = PyVal.dict fs := by
  cases oracle with
  | exn e => exact ⟨[(pys "error", PyVal.str e)], rfl⟩
  | reply text => exact parse_oracle_reply_dict text

theorem call_claude_nondict (oracle : OracleOutcome) (g : PyVal) (act : List Char)
    (hg : ∀ gs, g ≠ PyVal.dict gs) :
    call_claude oracle g act = Except.error (PyExn.attributeError
      (pys "'" ++ typeName g ++ pys "' object has no attribute 'get'")) := by
  cases g with
  | dict gs => exact absurd rfl (hg gs)
  | none => rfl
  | bool b => rfl
  | int n => rfl
  | float lx => rfl
  | str s => rfl
  | list xs => rfl

theorem call_claude_value (oracle : OracleOutcome) (g : PyVal)
    (act : List Char) (r : PyVal)
    (h : call_claude oracle g act = Except.ok r) : r = oracle_result oracle := by
  cases g with
  | dict gs =>
    rw [call_claude.eq_def] at h
    simp only [pyGet, ok_bind] at h
    by_cases hact : act = pys "ACCEPT_OR_REJECT"
    · simp only [if_pos hact] at h
      cases hoff : (lookupKey gs (pys "current_offer")).getD (PyVal.dict []) with
      | dict ofs =>
        rw [hoff] at h
        simp only [pyGet, ok_bind] at h
        cases oracle <;> simp_all [oracle_result]
      | none => rw [hoff] at h; simp only [pyGet, error_bind] at h; exact Except.noConfusion h
      | bool b => rw [hoff] at h; simp only [pyGet, error_bind] at h; exact Except.noConfusion h
      | int n => rw [hoff] at h; simp only [pyGet, error_bind] at h; exact Except.noConfusion h
      | float lx => rw [hoff] at h; simp only [pyGet, error_bind] at h; exact Except.noConfusion h
      | str s => rw [hoff] at h; simp only [pyGet, error_bind] at h; exact Except.noConfusion h
      | list xs => rw [hoff] at h; simp only [pyGet, error_bind] at h; exact Except.noConfusion h
    · simp only [if_neg hact] at h
      cases oracle <;> simp_all [oracle_result]
  | none =>
    rw [call_claude_nondict oracle _ act (by intro gs hgs; exact PyVal.noConfusion hgs)] at h
    exact Except.noConfusion h
  | bool b =>
    rw [call_claude_nondict oracle _ act (by intro gs hgs; exact PyVal.noConfusion hgs)] at h
    exact Except.noConfusion h
  | int n =>
    rw [call_claude_nondict oracle _ act (by intro gs hgs; exact PyVal.noConfusion hgs)] at h
    exact Except.noConfusion h
  | float lx =>
    rw [call_claude_nondict oracle _ act (by intro gs hgs; exact PyVal.noConfusion hgs)] at h
    exact Except.noConfusion h
  | str s =>
    rw [call_claude_nondict oracle _ act (by intro gs hgs; exact PyVal.noConfusion hgs)] at h
    exact Except.noConfusion h
  | list xs =>
    rw [call_claude_nondict oracle _ act (by intro gs hgs; exact PyVal.noConfusion hgs)] at h
    exact Except.noConfusion h

theorem call_claude_result_dict (oracle : OracleOutcome) (g : PyVal)
    (act : List Char) (r : PyVal)
    (h : call_claude oracle g act = Except.ok r) : ∃ fs, r = PyVal.dict fs := by
  rw [call_claude_value oracle g act r h]
  exact oracle_result_dict oracle

theorem call_claude_ok_of (oracle : OracleOutcome)
    (gs : List (List Char × PyVal)) (act : List Char)
    (hoffer : act = pys "ACCEPT_OR_REJECT" →
      ∀ off, lookupKey gs (pys "current_offer") = some off →
        ∃ ofs, off = PyVal.dict ofs) :
    call_claude oracle (PyVal.dict gs) act = Except.ok (oracle_result oracle) := by
  rw [call_claude.eq_def]
  simp only [pyGet, ok_bind]
  by_cases hact : act = pys "ACCEPT_OR_REJECT"
  · simp only [if_pos hact]
    have hofs : ∃ ofs, (lookupKey gs (pys "current_offer")).getD (PyVal.dict []) =
        PyVal.dict ofs := by
      cases hlk : lookupKey gs (pys "current_offer") with
      | none => exact ⟨[], rfl⟩
      | some off =>
        obtain ⟨ofs, hofs⟩ := hoffer hact off hlk
        exact ⟨ofs, by simp [hofs]⟩
    obtain ⟨ofs, hofs⟩ := hofs
    rw [hofs]
    simp only [pyGet, ok_bind]
    cases oracle <;> simp [oracle_result]
  · simp only [if_neg hact]
    cases oracle <;> simp [oracle_result]

/-- `get_action_type` takes only three values. -/
theorem action_cases (msg : List Char) :
    get_action_type msg = pys "PROPOSE" ∨
    get_action_type msg = pys "ACCEPT_OR_REJECT" ∨
    get_action_type msg = pys "UNKNOWN" := by
  unfold get_action_type
  by_cases h1 : pyIn (pys "Action: PROPOSE") msg = true
  · left; simp [h1]
  · by_cases h2 : pyIn (pys "Action: ACCEPT_OR_REJECT") msg = true
    · right; left; simp [h1, h2]
    · right; right; simp [h1, h2]

theorem handle_of_unknown (oracle : OracleOutcome) (msg : List Char)
    (h : get_action_type msg = pys "UNKNOWN") :
    handle_negotiation_message oracle msg = Except.ok unknownDecision := by
  obtain ⟨g, hg⟩ := parse_game_state_ok msg
  simp [handle_negotiation_message, hg, h]

theorem handle_eq_guarantor (oracle : OracleOutcome) (msg : List Char)
    (g : PyVal) (fs : List (List Char × PyVal))
    (hp : parse_game_state msg = Except.ok g)
    (hu : get_action_type msg ≠ pys "UNKNOWN")
    (hc : call_claude oracle g (get_action_type msg) = Except.ok (PyVal.dict fs)) :
    handle_negotiation_message oracle msg = guarantor g (get_action_type msg) fs := by
  rw [handle_negotiation_message]
  simp only [hp, ok_bind, if_neg hu, hc]

theorem mapME_halve_ints (qs : List Int) :
    mapME pyHalve (qs.map PyVal.int) = Except.ok (qs.map (fun q => Int.fdiv q 2)) := by
  induction qs with
  | nil => rfl
  | cons q qs ih => simp [mapME, pyHalve, ih]

theorem mapME_sub_ints (qs hs : List Int) :
    mapME (fun qh => pySubHalf qh.1 qh.2) ((qs.map PyVal.int).zip hs) =
      Except.ok ((qs.zip hs).map (fun qh => qh.1 - qh.2)) := by
  induction qs generalizing hs with
  | nil => rfl
  | cons q qs ih =>
    cases hs with
    | nil => rfl
    | cons h hs =>
      simp only [List.zip_cons_cons, List.map_cons, mapME,
        show pySubHalf (PyVal.int q, h).1 (PyVal.int q, h).2 = Except.ok (q - h) from rfl,
        ok_bind, pure_eq_ok]
      rw [show List.zipWith Prod.mk (List.map PyVal.int qs) hs =
        (List.map PyVal.int qs).zip hs from rfl, ih hs, ok_bind]

theorem zip_map_self (f : Int → Int) (g : Int → Int → Int) (qs : List Int) :
    (qs.zip (qs.map f)).map (fun qh => g qh.1 qh.2) = qs.map (fun q => g q (f q)) := by
  induction qs with
  | nil => rfl
  | cons q qs ih => simp [ih]

theorem mapME_halve_ok (items : List PyVal)
    (h : ∀ x ∈ items, (∃ n, x = PyVal.int n) ∨ ∃ b, x = PyVal.bool b) :
    ∃ hs : List Int, mapME pyHalve items = Except.ok (hs.map id) ∧
      mapME pyHalve items = Except.ok hs := by
  induction items with
  | nil => exact ⟨[], rfl, rfl⟩
  | cons x xs ih =>
    obtain ⟨hs, -, hxs⟩ := ih (fun y hy => h y (List.mem_cons_of_mem _ hy))
    rcases h x (List.mem_cons_self _ _) with ⟨n, hn⟩ | ⟨b, hb⟩
    · refine ⟨Int.fdiv n 2 :: hs, ?_, ?_⟩ <;> simp [mapME, hn, pyHalve, hxs]
    · refine ⟨Int.fdiv (if b then 1 else 0) 2 :: hs, ?_, ?_⟩ <;>
        simp [mapME, hb, pyHalve, hxs]

theorem mapME_sub_ok (ps : List (PyVal × Int))
    (h : ∀ p ∈ ps, (∃ n, p.1 = PyVal.int n) ∨ ∃ b, p.1 = PyVal.bool b) :
    ∃ os : List Int, mapME (fun qh => pySubHalf qh.1 qh.2) ps = Except.ok os := by
  induction ps with
  | nil => exact ⟨[], rfl⟩
  | cons p ps ih =>
    obtain ⟨pv, pn⟩ := p
    obtain ⟨os, hos⟩ := ih (fun q hq => h q (List.mem_cons_of_mem _ hq))
    rcases h (pv, pn) (List.mem_cons_self _ _) with ⟨n, hn⟩ | ⟨b, hb⟩
    · simp only at hn
      subst hn
      exact ⟨(n - pn) :: os, by
        simp only [mapME,
          show pySubHalf (PyVal.int n, pn).1 (PyVal.int n, pn).2 = Except.ok (n - pn) from rfl,
          ok_bind, hos, pure_eq_ok]⟩
    · simp only at hb
      subst hb
      exact ⟨((if b then 1 else 0) - pn) :: os, by
        simp only [mapME,
          show pySubHalf (PyVal.bool b, pn).1 (PyVal.bool b, pn).2 =
            Except.ok ((if b then 1 else 0) - pn) from rfl,
          ok_bind, hos, pure_eq_ok]⟩

theorem getD_map_int (f : Int → Int) (qs : List Int) (i : Nat) (h : i < qs.length) :
    (qs.map f).getD i 0 = f (qs.getD i 0) := by
  induction qs generalizing i with
  | nil => simp at h
  | cons q qs ih =>
    cases i with
    | zero => simp
    | succ i =>
      simp only [List.map_cons, List.getD_cons_succ]
      exact ih i (by simpa using Nat.lt_of_succ_lt_succ (by simpa using h))

theorem guarantor_ok_shape (g : PyVal) (act : List Char)
    (fs : List (List Char × PyVal)) (v : PyVal)
    (h : guarantor g act fs = Except.ok v) :
    (hasKey fs (pys "error") = false ∧ v = PyVal.dict fs) ∨
    (hasKey fs (pys "error") = true ∧ act = pys "PROPOSE" ∧
      ∃ half other reason, v = PyVal.dict
        [(pys "allocation_self", PyVal.list half),
         (pys "allocation_other", PyVal.list other),
         (pys "reason", PyVal.str reason)]) ∨
    (hasKey fs (pys "error") = true ∧ act ≠ pys "PROPOSE" ∧
      ∃ reason, v = PyVal.dict
        [(pys "accept", PyVal.bool false), (pys "reason", PyVal.str reason)]) := by
  by_cases hkey : hasKey fs (pys "error") = true
  · by_cases hpro : act = pys "PROPOSE"
    · right; left
      refine ⟨hkey, hpro, ?_⟩
      rw [guarantor.eq_def, if_pos hkey, if_pos hpro] at h
      cases hq : pyGet g (pys "quantities")
          (PyVal.list [PyVal.int 1, PyVal.int 1, PyVal.int 1]) with
      | error e => rw [hq] at h; simp at h
      | ok qv =>
        rw [hq] at h
        simp only [ok_bind] at h
        cases hit : iterItems qv with
        | error e => rw [hit] at h; simp at h
        | ok items =>
          rw [hit] at h
          simp only [ok_bind] at h
          cases hhalf : mapME pyHalve items with
          | error e => rw [hhalf] at h; simp at h
          | ok half =>
            rw [hhalf] at h
            simp only [ok_bind] at h
            cases hsub : mapME (fun qh => pySubHalf qh.1 qh.2) (items.zip half) with
            | error e => rw [hsub] at h; simp at h
            | ok other =>
              rw [hsub] at h
              simp only [ok_bind, pure_eq_ok, Except.ok.injEq] at h
              exact ⟨half.map PyVal.int, other.map PyVal.int, _, h.symm⟩
    · right; right
      refine ⟨hkey, hpro, ?_⟩
      rw [guarantor.eq_def, if_pos hkey, if_neg hpro] at h
      simp only [pure_eq_ok, Except.ok.injEq] at h
      exact ⟨_, h.symm⟩
  · left
    have hkey' : hasKey fs (pys "error") = false := by
      cases hb : hasKey fs (pys "error")
      · rfl
      · exact absurd hb hkey
    refine ⟨hkey', ?_⟩
    rw [guarantor.eq_def, if_neg hkey] at h
    simp only [pure_eq_ok, Except.ok.injEq] at h
    exact h.symm

theorem guarantor_ok_exists (gs : List (List Char × PyVal)) (act : List Char)
    (fs : List (List Char × PyVal))
    (hq : act = pys "PROPOSE" → ∀ q, lookupKey gs (pys "quantities") = some q →
        ∃ items, q = PyVal.list items ∧
          ∀ x ∈ items, (∃ n, x = PyVal.int n) ∨ ∃ b, x = PyVal.bool b) :
    ∃ v, guarantor (PyVal.dict gs) act fs = Except.ok v := by
  by_cases hkey : hasKey fs (pys "error") = true
  · by_cases hpro : act = pys "PROPOSE"
    · rw [guarantor.eq_def, if_pos hkey, if_pos hpro]
      simp only [pyGet, ok_bind]
      cases hlk : lookupKey gs (pys "quantities") with
      | none =>
        simp only [hlk, Option.getD_none]
        exact ⟨_, rfl⟩
      | some q =>
        obtain ⟨items, hq', hels⟩ := hq hpro q hlk
        subst hq'
        simp only [hlk, Option.getD_some, iterItems, ok_bind]
        obtain ⟨hs, -, hhs⟩ := mapME_halve_ok items hels
        rw [hhs]
        simp only [ok_bind]
        obtain ⟨os, hos⟩ := mapME_sub_ok (items.zip hs)
          (fun p hp => hels p.1 (List.of_mem_zip hp).1)
        rw [hos]
        simp only [ok_bind, pure_eq_ok]
        exact ⟨_, rfl⟩
    · rw [guarantor.eq_def, if_pos hkey, if_neg hpro]
      exact ⟨_, rfl⟩
  · rw [guarantor.eq_def, if_neg hkey]
    exact ⟨_, rfl⟩

/-! The claim theorems. -/

/-- C10: a raw message containing both the substring `Action: PROPOSE`
and the substring `Action: ACCEPT_OR_REJECT` is classified PROPOSE — the
PROPOSE marker test runs first and takes precedence. -/
theorem claim_C10_propose_precedence (msg : List Char)
    (h1 : pyIn (pys "Action: PROPOSE") msg = true)
    (h2 : pyIn (pys "Action: ACCEPT_OR_REJECT") msg = true) :
    get_action_type msg = pys "PROPOSE" := by
  simp [get_action_type, h1]

/-- Witness for C10 at a concrete message carrying both markers. -/
theorem claim_C10_witness :
    pyIn (pys "Action: PROPOSE") (pys "Action: PROPOSE then Action: ACCEPT_OR_REJECT") = true ∧
    pyIn (pys "Action: ACCEPT_OR_REJECT")
      (pys "Action: PROPOSE then Action: ACCEPT_OR_REJECT") = true ∧
    get_action_type (pys "Action: PROPOSE then Action: ACCEPT_OR_REJECT") = pys "PROPOSE" :=
  ⟨rfl, rfl, claim_C10_propose_precedence _ rfl rfl⟩

/-- C4: a raw message containing neither marker is classified UNKNOWN and
`handle_negotiation_message` returns the explicit error decision with the
WALK disposition for every oracle outcome — in particular the result does
not depend on the oracle, so no oracle call is consulted. -/
theorem claim_C4_unknown_walk (msg : List Char)
    (h1 : pyIn (pys "Action: PROPOSE") msg = false)
    (h2 : pyIn (pys "Action: ACCEPT_OR_REJECT") msg = false) :
    get_action_type msg = pys "UNKNOWN" ∧
    ∀ oracle : OracleOutcome,
      handle_negotiation_message oracle msg =
        Except.ok (PyVal.dict [(pys "error", PyVal.str (pys "Unknown action type")),
                               (pys "action", PyVal.str (pys "WALK"))]) := by
  have hact : get_action_type msg = pys "UNKNOWN" := by simp [get_action_type, h1, h2]
  exact ⟨hact, fun oracle => handle_of_unknown oracle msg hact⟩

/-- Witness for C4 at a concrete marker-free message. -/
theorem claim_C4_witness :
    get_action_type (pys "hello there") = pys "UNKNOWN" ∧
    handle_negotiation_message (OracleOutcome.reply (pys "ignored")) (pys "hello there") =
      Except.ok (PyVal.dict [(pys "error", PyVal.str (pys "Unknown action type")),
                             (pys "action", PyVal.str (pys "WALK"))]) :=
  ⟨(claim_C4_unknown_walk (pys "hello there") rfl rfl).1,
   (claim_C4_unknown_walk (pys "hello there") rfl rfl).2 _⟩

/-- C5: `parse_game_state` is total — it returns a value (never
propagates an exception) on every input — and whenever the candidate
payload fails to parse (or no payload exists) it returns the empty
state. -/
theorem claim_C5_extraction_total (s : List Char) :
    (∃ v, parse_game_state s = Except.ok v) ∧
    (∀ c, extract_candidate s = some c → jsonLoadsOpt c = Option.none →
      parse_game_state s = Except.ok (PyVal.dict [])) ∧
    (extract_candidate s = Option.none → parse_game_state s = Except.ok (PyVal.dict [])) := by
  refine ⟨parse_game_state_ok s, ?_, ?_⟩
  · intro c hc hj
    simp [parse_game_state, json_loads, hc, hj]
  · intro hc
    simp [parse_game_state, hc]

/-- Witness for C5 at a concrete message whose brace scan never balances,
so the candidate is empty and fails to parse. -/
theorem claim_C5_witness :
    extract_candidate (pys "\x7b\x7bunbalanced") = some [] ∧
    jsonLoadsOpt ([] : List Char) = Option.none ∧
    parse_game_state (pys "\x7b\x7bunbalanced") = Except.ok (PyVal.dict []) :=
  ⟨rfl, rfl, (claim_C5_extraction_total _).2.1 [] rfl rfl⟩

/-- C3: on any oracle failure descriptor carrying an error message while
the action is ACCEPT_OR_REJECT, the final decision is the reject-by-
default fallback with `accept = false`, and its reason embeds the
underlying failure cause verbatim (as a substring). -/
theorem claim_C3_reject_fallback (oracle : OracleOutcome) (msg : List Char)
    (g : PyVal) (fs : List (List Char × PyVal)) (e : List Char)
    (hact : get_action_type msg = pys "ACCEPT_OR_REJECT")
    (hp : parse_game_state msg = Except.ok g)
    (hc : call_claude oracle g (pys "ACCEPT_OR_REJECT") = Except.ok (PyVal.dict fs))
    (he : lookupKey fs (pys "error") = some (PyVal.str e)) :
    handle_negotiation_message oracle msg = Except.ok (PyVal.dict
      [(pys "accept", PyVal.bool false),
       (pys "reason", PyVal.str (pys "Fallback rejection due to error: " ++ e))]) ∧
    pyIn e (pys "Fallback rejection due to error: " ++ e) = true := by
  constructor
  · rw [handle_eq_guarantor oracle msg g fs hp (by rw [hact]; decide) (by rw [hact]; exact hc)]
    have hkey : hasKey fs (pys "error") = true := by simp [hasKey, he]
    rw [hact, guarantor.eq_def, if_pos hkey, if_neg (by decide : ¬(pys "ACCEPT_OR_REJECT" = pys "PROPOSE"))]
    simp [he, pyStr]
  · exact pyIn_append_self _ _

/-- Witness for C3: oracle unreachable during an ACCEPT_OR_REJECT turn. -/
theorem claim_C3_witness :
    handle_negotiation_message (OracleOutcome.exn (pys "socket timeout"))
        (pys "Action: ACCEPT_OR_REJECT") =
      Except.ok (PyVal.dict
        [(pys "accept", PyVal.bool false),
         (pys "reason", PyVal.str (pys "Fallback rejection due to error: socket timeout"))]) ∧
    pyIn (pys "socket timeout") (pys "Fallback rejection due to error: socket timeout") = true := by
  have h := claim_C3_reject_fallback (OracleOutcome.exn (pys "socket timeout"))
    (pys "Action: ACCEPT_OR_REJECT") (PyVal.dict [])
    [(pys "error", PyVal.str (pys "socket timeout"))] (pys "socket timeout")
    rfl rfl rfl rfl
  exact ⟨h.1, h.2⟩

/-- C2: whenever the action is PROPOSE, the extracted game state carries
integer quantities `Q`, and the oracle result carries a failure marker,
the fallback proposal allocates `Q[i] // 2` to self and the remainder to
the other party — so `self[i] + other[i] = Q[i]` and `self[i] = Q[i] // 2`
at every index — with a reason embedding the failure cause. -/
theorem claim_C2_fallback_proposal (oracle : OracleOutcome) (msg : List Char)
    (gs : List (List Char × PyVal)) (qs : List Int) (fs : List (List Char × PyVal))
    (hp : parse_game_state msg = Except.ok (PyVal.dict gs))
    (hact : get_action_type msg = pys "PROPOSE")
    (hq : lookupKey gs (pys "quantities") = some (PyVal.list (qs.map PyVal.int)))
    (hnn : ∀ q ∈ qs, 0 ≤ q)
    (hc : call_claude oracle (PyVal.dict gs) (pys "PROPOSE") = Except.ok (PyVal.dict fs))
    (he : hasKey fs (pys "error") = true) :
    handle_negotiation_message oracle msg = Except.ok (PyVal.dict
      [(pys "allocation_self", PyVal.list ((qs.map (fun q => Int.fdiv q 2)).map PyVal.int)),
       (pys "allocation_other",
         PyVal.list ((qs.map (fun q => q - Int.fdiv q 2)).map PyVal.int)),
       (pys "reason", PyVal.str (pys "Fallback proposal due to error: " ++
         pyStr ((lookupKey fs (pys "error")).getD (PyVal.str (pys "unknown")))))]) ∧
    (∀ i, i < qs.length →
      (qs.map (fun q => Int.fdiv q 2)).getD i 0 = Int.fdiv (qs.getD i 0) 2 ∧
      (qs.map (fun q => Int.fdiv q 2)).getD i 0 +
        (qs.map (fun q => q - Int.fdiv q 2)).getD i 0 = qs.getD i 0) := by
  constructor
  · rw [handle_eq_guarantor oracle msg (PyVal.dict gs) fs hp (by rw [hact]; decide)
      (by rw [hact]; exact hc)]
    rw [hact, guarantor.eq_def, if_pos he, if_pos rfl]
    simp only [pyGet, ok_bind, hq, Option.getD_some, iterItems, mapME_halve_ints]
    rw [mapME_sub_ints qs (qs.map (fun q => Int.fdiv q 2)), ok_bind,
      zip_map_self (fun q => Int.fdiv q 2) (fun a b => a - b) qs]
    rfl
  · intro i hi
    constructor
    · exact getD_map_int (fun q => Int.fdiv q 2) qs i hi
    · rw [getD_map_int (fun q => Int.fdiv q 2) qs i hi,
        getD_map_int (fun q => q - Int.fdiv q 2) qs i hi]
      ring

/-- Witness for C2 on Scenario A: quantities `[3,5]`, oracle
unreachable. -/
theorem claim_C2_witness :
    (∀ q ∈ ([3, 5] : List Int), 0 ≤ q) ∧
    handle_negotiation_message (OracleOutcome.exn (pys "oracle unreachable"))
        (pys "Action: PROPOSE\n\x7b\"quantities\": [3,5]\x7d") =
      Except.ok (PyVal.dict
        [(pys "allocation_self", PyVal.list [PyVal.int 1, PyVal.int 2]),
         (pys "allocation_other", PyVal.list [PyVal.int 2, PyVal.int 3]),
         (pys "reason",
           PyVal.str (pys "Fallback proposal due to error: oracle unreachable"))]) :=
  ⟨by decide,
   (claim_C2_fallback_proposal (OracleOutcome.exn (pys "oracle unreachable"))
     (pys "Action: PROPOSE\n\x7b\"quantities\": [3,5]\x7d")
     [(pys "quantities", PyVal.list [PyVal.int 3, PyVal.int 5])] [3, 5]
     [(pys "error", PyVal.str (pys "oracle unreachable"))]
     rfl rfl rfl (by decide) rfl rfl).1⟩

/-- C9: a final decision delivered by `handle_negotiation_message`
carries an `error` field exactly in the terminal UNKNOWN-action case:
neither fallback decision has one, and an oracle dict carrying an `error`
key is diverted to the fallback path instead of being passed through. -/
theorem claim_C9_error_field_iff_unknown (oracle : OracleOutcome) (msg : List Char)
    (v : PyVal) (h : handle_negotiation_message oracle msg = Except.ok v) :
    (∃ fs, v = PyVal.dict fs ∧ hasKey fs (pys "error") = true) ↔
      get_action_type msg = pys "UNKNOWN" := by
  by_cases hu : get_action_type msg = pys "UNKNOWN"
  · rw [handle_of_unknown oracle msg hu] at h
    injection h with hh
    constructor
    · intro _; exact hu
    · intro _
      exact ⟨[(pys "error", PyVal.str (pys "Unknown action type")),
              (pys "action", PyVal.str (pys "WALK"))], hh.symm, rfl⟩
  · constructor
    · rintro ⟨fs, hv, hkey⟩
      exfalso
      obtain ⟨g, hg⟩ := parse_game_state_ok msg
      rw [handle_negotiation_message.eq_def] at h
      simp only [hg, ok_bind, if_neg hu] at h
      cases hc : call_claude oracle g (get_action_type msg) with
      | error e =>
        rw [hc, error_bind] at h
        exact Except.noConfusion h
      | ok r =>
        rw [hc] at h
        simp only [ok_bind] at h
        obtain ⟨fs0, hr⟩ := call_claude_result_dict _ _ _ _ hc
        subst hr
        have hguar : guarantor g (get_action_type msg) fs0 = Except.ok v := h
        rcases guarantor_ok_shape g _ fs0 v hguar with
          ⟨hk0, hv0⟩ | ⟨hk0, hpro, half, other, reason, hv0⟩ | ⟨hk0, hpro, reason, hv0⟩
        · rw [hv] at hv0
          injection hv0 with hfs
          rw [hfs, hk0] at hkey
          exact Bool.noConfusion hkey
        · rw [hv] at hv0
          injection hv0 with hfs
          rw [hfs] at hkey
          rw [show hasKey [(pys "allocation_self", PyVal.list half),
              (pys "allocation_other", PyVal.list other),
              (pys "reason", PyVal.str reason)] (pys "error") = false from rfl] at hkey
          exact Bool.noConfusion hkey
        · rw [hv] at hv0
          injection hv0 with hfs
          rw [hfs] at hkey
          rw [show hasKey [(pys "accept", PyVal.bool false),
              (pys "reason", PyVal.str reason)] (pys "error") = false from rfl] at hkey
          exact Bool.noConfusion hkey
    · intro hcontra; exact absurd hcontra hu

/-- Witness for C9: a successful ACCEPT_OR_REJECT pass-through carries no
`error` field, matching the non-UNKNOWN classification. -/
theorem claim_C9_witness :
    ((∃ fs, PyVal.dict [(pys "accept", PyVal.bool true)] = PyVal.dict fs ∧
        hasKey fs (pys "error") = true) ↔
      get_action_type (pys "Action: ACCEPT_OR_REJECT") = pys "UNKNOWN") :=
  claim_C9_error_field_iff_unknown
    (OracleOutcome.reply (pys "\x7b\"accept\": true\x7d"))
    (pys "Action: ACCEPT_OR_REJECT")
    (PyVal.dict [(pys "accept", PyVal.bool true)]) rfl

/-- C1 counterexample: the claim says `handle_negotiation_message` never
raises, but a message classified ACCEPT_OR_REJECT whose game state holds
a non-dict `current_offer` makes the prompt construction call `.get` on
an int — outside the try block — so an `AttributeError` escapes to the
caller. -/
theorem claim_C1_counterexample :
    handle_negotiation_message (OracleOutcome.exn (pys "api down"))
        (pys "Action: ACCEPT_OR_REJECT \x7b\"current_offer\": 5\x7d") =
      Except.error (PyExn.attributeError (pys "'int' object has no attribute 'get'")) := by
  rfl

/-- C1 amended: when the extracted game state is a dict whose
`current_offer` (if the action is ACCEPT_OR_REJECT and the key is
present) is itself a dict and whose `quantities` (if the action is
PROPOSE and the key is present) is a list of integers,
`handle_negotiation_message` returns without raising; the decision is the
explicit error object for UNKNOWN, structurally valid for both fallback
paths, and a successful (error-free) oracle dict is passed through
unchanged — with no guarantee that the pass-through matches the action
type's field shape. -/
theorem claim_C1_amended (oracle : OracleOutcome) (msg : List Char)
    (gs : List (List Char × PyVal))
    (hp : parse_game_state msg = Except.ok (PyVal.dict gs))
    (hoffer : get_action_type msg = pys "ACCEPT_OR_REJECT" →
      ∀ off, lookupKey gs (pys "current_offer") = some off → ∃ ofs, off = PyVal.dict ofs)
    (hquant : get_action_type msg = pys "PROPOSE" →
      ∀ q, lookupKey gs (pys "quantities") = some q →
        ∃ items, q = PyVal.list items ∧
          ∀ x ∈ items, (∃ n, x = PyVal.int n) ∨ ∃ b, x = PyVal.bool b) :
    ∃ v fs, handle_negotiation_message oracle msg = Except.ok v ∧
      oracle_result oracle = PyVal.dict fs ∧
      (get_action_type msg = pys "UNKNOWN" → v = unknownDecision) ∧
      (get_action_type msg ≠ pys "UNKNOWN" →
        (hasKey fs (pys "error") = true →
          (get_action_type msg = pys "PROPOSE" → isProposeShaped v = true) ∧
          (get_action_type msg = pys "ACCEPT_OR_REJECT" → isVerdictShaped v = true)) ∧
        (hasKey fs (pys "error") = false → v = PyVal.dict fs)) := by
  obtain ⟨fs, hfs⟩ := oracle_result_dict oracle
  rcases action_cases msg with hact | hact | hact
  · -- PROPOSE
    have hc : call_claude oracle (PyVal.dict gs) (get_action_type msg) =
        Except.ok (PyVal.dict fs) := by
      rw [← hfs]
      exact call_claude_ok_of oracle gs _
        (fun hacc => absurd (hact.symm.trans hacc) (by decide))
    have hu : get_action_type msg ≠ pys "UNKNOWN" := by rw [hact]; decide
    obtain ⟨v, hguar⟩ := guarantor_ok_exists gs (get_action_type msg) fs
      (fun _ => hquant hact)
    refine ⟨v, fs, ?_, hfs, fun habs => absurd habs hu, fun _ => ?_⟩
    · rw [handle_eq_guarantor oracle msg (PyVal.dict gs) fs hp hu hc]
      exact hguar
    · constructor
      · intro hkey
        rcases guarantor_ok_shape _ _ _ _ hguar with
          ⟨hk0, -⟩ | ⟨-, -, half, other, reason, hv0⟩ | ⟨-, hpro, -⟩
        · rw [hkey] at hk0; exact Bool.noConfusion hk0
        · refine ⟨fun _ => ?_, fun hacc => absurd (hact.symm.trans hacc) (by decide)⟩
          rw [hv0]
          rfl
        · exact absurd hact hpro
      · intro hkey
        rcases guarantor_ok_shape _ _ _ _ hguar with
          ⟨-, hv0⟩ | ⟨hk0, -, -⟩ | ⟨hk0, -, -⟩
        · exact hv0
        · rw [hkey] at hk0; exact Bool.noConfusion hk0
        · rw [hkey] at hk0; exact Bool.noConfusion hk0
  · -- ACCEPT_OR_REJECT
    have hc : call_claude oracle (PyVal.dict gs) (get_action_type msg) =
        Except.ok (PyVal.dict fs) := by
      rw [← hfs]
      exact call_claude_ok_of oracle gs _ (fun _ => hoffer hact)
    have hu : get_action_type msg ≠ pys "UNKNOWN" := by rw [hact]; decide
    obtain ⟨v, hguar⟩ := guarantor_ok_exists gs (get_action_type msg) fs
      (fun hpro => absurd (hact.symm.trans hpro) (by decide))
    refine ⟨v, fs, ?_, hfs, fun habs => absurd habs hu, fun _ => ?_⟩
    · rw [handle_eq_guarantor oracle msg (PyVal.dict gs) fs hp hu hc]
      exact hguar
    · constructor
      · intro hkey
        rcases guarantor_ok_shape _ _ _ _ hguar with
          ⟨hk0, -⟩ | ⟨-, hpro, -⟩ | ⟨-, -, reason, hv0⟩
        · rw [hkey] at hk0; exact Bool.noConfusion hk0
        · exact absurd (hact.symm.trans hpro) (by decide)
        · refine ⟨fun hpro => absurd (hact.symm.trans hpro) (by decide), fun _ => ?_⟩
          rw [hv0]
          rfl
      · intro hkey
        rcases guarantor_ok_shape _ _ _ _ hguar with
          ⟨-, hv0⟩ | ⟨hk0, -, -⟩ | ⟨hk0, -, -⟩
        · exact hv0
        · rw [hkey] at hk0; exact Bool.noConfusion hk0
        · rw [hkey] at hk0; exact Bool.noConfusion hk0
  · -- UNKNOWN
    refine ⟨unknownDecision, fs, handle_of_unknown oracle msg hact, hfs,
      fun _ => rfl, fun habs => absurd hact habs⟩

/-- Witness for the amended C1 at a concrete PROPOSE message with a
well-formed game state and an oracle failure. -/
theorem claim_C1_witness :
    ∃ v fs,
      handle_negotiation_message (OracleOutcome.exn (pys "down"))
          (pys "Action: PROPOSE \x7b\"quantities\": [4]\x7d") = Except.ok v ∧
      oracle_result (OracleOutcome.exn (pys "down")) = PyVal.dict fs ∧
      (get_action_type (pys "Action: PROPOSE \x7b\"quantities\": [4]\x7d") = pys "UNKNOWN" →
        v = unknownDecision) ∧
      (get_action_type (pys "Action: PROPOSE \x7b\"quantities\": [4]\x7d") ≠ pys "UNKNOWN" →
        (hasKey fs (pys "error") = true →
          (get_action_type (pys "Action: PROPOSE \x7b\"quantities\": [4]\x7d") = pys "PROPOSE" →
            isProposeShaped v = true) ∧
          (get_action_type (pys "Action: PROPOSE \x7b\"quantities\": [4]\x7d") =
              pys "ACCEPT_OR_REJECT" → isVerdictShaped v = true)) ∧
        (hasKey fs (pys "error") = false → v = PyVal.dict fs)) :=
  claim_C1_amended (OracleOutcome.exn (pys "down"))
    (pys "Action: PROPOSE \x7b\"quantities\": [4]\x7d")
    [(pys "quantities", PyVal.list [PyVal.int 4])] rfl
    (fun hacc => absurd hacc (by decide))
    (fun _ q hq => by
      refine ⟨[PyVal.int 4], ?_, ?_⟩
      · cases hq' : lookupKey [(pys "quantities", PyVal.list [PyVal.int 4])]
            (pys "quantities") with
        | none => rw [hq'] at hq; exact Option.noConfusion hq
        | some q0 =>
          rw [hq'] at hq
          injection hq with hq
          rw [← hq, show q0 = PyVal.list [PyVal.int 4] from by
            have : lookupKey [(pys "quantities", PyVal.list [PyVal.int 4])]
                (pys "quantities") = some (PyVal.list [PyVal.int 4]) := rfl
            rw [hq'] at this
            exact (Option.some.injEq _ _ ▸ this : q0 = PyVal.list [PyVal.int 4])]
      · intro x hx
        rcases List.mem_singleton.mp hx with hx4
        exact Or.inl ⟨4, hx4⟩)

/-- C6: when no labeled fenced block is present and the message contains
a balanced brace object starting at its first opening brace (the
spec-side `balancedObj` predicate), `parse_game_state` selects exactly
that outermost balanced object as the candidate — irrespective of
unbalanced braces in the text before it — and returns its parsed
contents. -/
theorem claim_C6_balanced_object (pre t suf : List Char)
    (hfence : pyIn (pys "```json") (pre ++ ('{' :: t) ++ suf) = false)
    (hpre : ∀ c ∈ pre, c ≠ '{')
    (hbal : balancedObj ('{' :: t) = true) :
    extract_candidate (pre ++ ('{' :: t) ++ suf) = some ('{' :: t) ∧
    ∀ v, jsonLoadsOpt ('{' :: t) = some v →
      parse_game_state (pre ++ ('{' :: t) ++ suf) = Except.ok v := by
  have hmsg : pre ++ ('{' :: t) ++ suf = pre ++ '{' :: (t ++ suf) := by simp
  have hfind : findSub (pre ++ ('{' :: t) ++ suf) ['{'] = some pre.length := by
    rw [hmsg]
    exact findSub_cons_of_forall_ne pre '{' (t ++ suf) hpre
  have hpysb : pys "\x7b" = ['{'] := rfl
  have hin : pyIn (pys "\x7b") (pre ++ ('{' :: t) ++ suf) = true := by
    rw [hpysb, pyIn, hfind]
    rfl
  have hfind' : pyFind (pre ++ ('{' :: t) ++ suf) (pys "\x7b") = Int.ofNat pre.length := by
    rw [hpysb, pyFind, hfind]
  have hdrop : (pre ++ ('{' :: t) ++ suf).drop pre.length = '{' :: (t ++ suf) := by
    rw [hmsg]
    exact List.drop_left pre _
  have hscan : scanEnd ('{' :: (t ++ suf)) 0 = some (t.length + 1) :=
    scanEnd_of_balancedObj t suf hbal
  have hslice : natSlice (pre ++ ('{' :: t) ++ suf) pre.length (pre.length + (t.length + 1)) =
      '{' :: t := by
    have := natSlice_of_append pre ('{' :: t) suf
    simpa using this
  have hfneg : ¬ (pyIn (pys "```json") (pre ++ ('{' :: t) ++ suf) = true) := by
    rw [hfence]
    exact Bool.false_ne_true
  have hcand : extract_candidate (pre ++ ('{' :: t) ++ suf) = some ('{' :: t) := by
    unfold extract_candidate
    rw [if_neg hfneg, if_pos hin, hfind',
      show (Int.ofNat pre.length).toNat = pre.length from rfl, hdrop, hscan]
    exact congrArg some hslice
  have hcand' : extract_candidate (pre ++ '{' :: (t ++ suf)) = some ('{' :: t) := by
    rw [← hmsg]
    exact hcand
  refine ⟨hcand, fun v hv => ?_⟩
  simp [parse_game_state, json_loads, hcand, hcand', hv]

/-- Witness for C6: a nested object preceded by an unbalanced closing
brace in unrelated text. -/
theorem claim_C6_witness :
    extract_candidate (pys "\x7dnoise " ++ ('{' :: pys "\"a\": \x7b\"b\": 2\x7d\x7d") ++
        pys " tail") = some ('{' :: pys "\"a\": \x7b\"b\": 2\x7d\x7d") ∧
    parse_game_state (pys "\x7dnoise " ++ ('{' :: pys "\"a\": \x7b\"b\": 2\x7d\x7d") ++
        pys " tail") =
      Except.ok (PyVal.dict [(pys "a", PyVal.dict [(pys "b", PyVal.int 2)])]) := by
  have h := claim_C6_balanced_object (pys "\x7dnoise ") (pys "\"a\": \x7b\"b\": 2\x7d\x7d")
    (pys " tail") rfl (by decide) rfl
  exact ⟨h.1, h.2 _ rfl⟩

/-- C7: when the message carries a labeled fenced block — the opening
marker first occurring right after `pre` and the next closing fence right
after `mid` — `parse_game_state` takes exactly the text between the two
fence markers (stripped) as the candidate payload, in priority over any
bare brace object elsewhere, and returns its parsed contents. -/
theorem claim_C7_fenced_block (pre mid suf : List Char)
    (h1 : findSub (pre ++ pys "```json" ++ mid ++ pys "```" ++ suf) (pys "```json") =
      some pre.length)
    (h2 : findSub (mid ++ pys "```" ++ suf) (pys "```") = some mid.length) :
    extract_candidate (pre ++ pys "```json" ++ mid ++ pys "```" ++ suf) =
      some (pyStrip mid) ∧
    ∀ v, jsonLoadsOpt (pyStrip mid) = some v →
      parse_game_state (pre ++ pys "```json" ++ mid ++ pys "```" ++ suf) =
        Except.ok v := by
  have hin : pyIn (pys "```json")
      (pre ++ pys "```json" ++ mid ++ pys "```" ++ suf) = true := by
    rw [pyIn, h1]
    rfl
  have hfind' : pyFind (pre ++ pys "```json" ++ mid ++ pys "```" ++ suf)
      (pys "```json") = Int.ofNat pre.length := by
    rw [pyFind, h1]
  have hlj : (pys "```json").length = 7 := rfl
  have hstart : (Int.ofNat pre.length + 7).toNat = pre.length + 7 := by
    rw [show Int.ofNat pre.length + 7 = Int.ofNat (pre.length + 7) from rfl]
    rfl
  have hassoc : pre ++ pys "```json" ++ mid ++ pys "```" ++ suf =
      (pre ++ pys "```json") ++ (mid ++ pys "```" ++ suf) := by
    simp [List.append_assoc]
  have hdrop : (pre ++ pys "```json" ++ mid ++ pys "```" ++ suf).drop (pre.length + 7) =
      mid ++ pys "```" ++ suf := by
    rw [hassoc]
    exact List.drop_left' (by simp [hlj])
  have hff : pyFindFrom (pre ++ pys "```json" ++ mid ++ pys "```" ++ suf)
      (pys "```") (pre.length + 7) = Int.ofNat (pre.length + 7 + mid.length) := by
    rw [pyFindFrom, hdrop, h2]
  have hassoc2 : pre ++ pys "```json" ++ mid ++ pys "```" ++ suf =
      ((pre ++ pys "```json") ++ mid) ++ (pys "```" ++ suf) := by
    simp [List.append_assoc]
  have hslice : pySlice (pre ++ pys "```json" ++ mid ++ pys "```" ++ suf)
      (Int.ofNat pre.length + 7) (Int.ofNat (pre.length + 7 + mid.length)) = mid := by
    have hx : Int.ofNat pre.length + 7 = Int.ofNat ((pre ++ pys "```json").length) := by
      simp only [List.length_append, hlj, ofNat_eq_cast]
      push_cast
      ring
    have hy : Int.ofNat (pre.length + 7 + mid.length) =
        Int.ofNat ((pre ++ pys "```json").length + mid.length) := by
      simp [hlj]
    rw [hassoc2, hx, hy]
    exact pySlice_of_append (pre ++ pys "```json") mid (pys "```" ++ suf)
  have hcand : extract_candidate (pre ++ pys "```json" ++ mid ++ pys "```" ++ suf) =
      some (pyStrip mid) := by
    unfold extract_candidate
    rw [if_pos hin, hfind', hstart, hff, hslice]
  have hcand' : extract_candidate (pre ++ (pys "```json" ++ (mid ++ (pys "```" ++ suf)))) =
      some (pyStrip mid) := by
    rw [show pre ++ (pys "```json" ++ (mid ++ (pys "```" ++ suf))) =
      pre ++ pys "```json" ++ mid ++ pys "```" ++ suf by simp [List.append_assoc]]
    exact hcand
  refine ⟨hcand, fun v hv => ?_⟩
  simp [parse_game_state, json_loads, hcand, hcand', hv]

/-- Witness for C7: a fenced JSON block, with a bare brace object later
in the message that is ignored in its favor. -/
theorem claim_C7_witness :
    extract_candidate (pys "intro " ++ pys "```json" ++ pys "\n\x7b\"role\": \"buyer\"\x7d\n" ++
        pys "```" ++ pys " ignored \x7b\"x\": 1\x7d") =
      some (pyStrip (pys "\n\x7b\"role\": \"buyer\"\x7d\n")) ∧
    parse_game_state (pys "intro " ++ pys "```json" ++ pys "\n\x7b\"role\": \"buyer\"\x7d\n" ++
        pys "```" ++ pys " ignored \x7b\"x\": 1\x7d") =
      Except.ok (PyVal.dict [(pys "role", PyVal.str (pys "buyer"))]) := by
  have h := claim_C7_fenced_block (pys "intro ") (pys "\n\x7b\"role\": \"buyer\"\x7d\n")
    (pys " ignored \x7b\"x\": 1\x7d") rfl rfl
  exact ⟨h.1, h.2 _ rfl⟩

/-- C8: the adapter's reply-parsing policy, in order: a trimmed reply
starting with an opening brace is parsed whole; otherwise, when a brace
occurs anywhere, the substring from the first opening brace to the last
closing brace (not depth-balanced) is parsed; otherwise a failure
descriptor carrying the trimmed reply is returned.  A parse failure in
the first two branches becomes the failure descriptor. -/
theorem claim_C8_reply_policy (text pre core suf : List Char) :
    ((pys "\x7b").isPrefixOf (pyStrip text) = true →
      parse_oracle_reply text =
        (match jsonLoadsOpt (pyStrip text) with
         | some v => v
         | Option.none => PyVal.dict [(pys "error", PyVal.str jsonDecodeMessage)])) ∧
    ((pys "\x7b").isPrefixOf (pyStrip text) = false →
      pyStrip text = pre ++ ('{' :: (core ++ ('}' :: suf))) →
      (∀ c ∈ pre, c ≠ '{') →
      (∀ c ∈ suf, c ≠ '}') →
      parse_oracle_reply text =
        (match jsonLoadsOpt ('{' :: (core ++ ['}'])) with
         | some v => v
         | Option.none => PyVal.dict [(pys "error", PyVal.str jsonDecodeMessage)])) ∧
    (pyIn (pys "\x7b") (pyStrip text) = false →
      parse_oracle_reply text =
        PyVal.dict [(pys "error", PyVal.str (pys "Could not parse Claude response")),
                    (pys "raw", PyVal.str (pyStrip text))]) := by
  refine ⟨?_, ?_, ?_⟩
  · intro h
    unfold parse_oracle_reply parse_reply_text
    rw [if_pos h]
  · intro h hdecomp hpre hsuf
    have hfind : findSub (pyStrip text) ['{'] = some pre.length := by
      rw [hdecomp]
      exact findSub_cons_of_forall_ne pre '{' (core ++ ('}' :: suf)) hpre
    have hbr : pys "\x7b" = ['{'] := rfl
    have hcl : pys "\x7d" = ['}'] := rfl
    have hin : pyIn (pys "\x7b") (pyStrip text) = true := by
      rw [hbr, pyIn, hfind]
      rfl
    have hstart : (pyFind (pyStrip text) (pys "\x7b")).toNat = pre.length := by
      rw [hbr, pyFind, hfind]
      rfl
    have hrevshape : (pyStrip text).reverse =
        suf.reverse ++ ('}' :: (core.reverse ++ ('{' :: pre.reverse))) := by
      rw [hdecomp]
      simp
    have hrevne : ∀ c ∈ suf.reverse, c ≠ '}' :=
      fun c hc => hsuf c (List.mem_reverse.mp hc)
    have hfind2 : findSub ((pyStrip text).reverse) ['}'] = some suf.length := by
      rw [hrevshape]
      have := findSub_cons_of_forall_ne suf.reverse '}'
        (core.reverse ++ ('{' :: pre.reverse)) hrevne
      simpa using this
    have hlen : (pyStrip text).length = pre.length + core.length + suf.length + 2 := by
      rw [hdecomp]
      simp only [List.length_append, List.length_cons]
      omega
    have hrfind : pyRfind (pyStrip text) (pys "\x7d") =
        Int.ofNat (pre.length + core.length + 1) := by
      have hnat : (pyStrip text).length - (pys "\x7d").length - suf.length =
          pre.length + core.length + 1 := by
        rw [hlen, show (pys "\x7d").length = 1 from rfl]
        omega
      rw [pyRfind, show (pys "\x7d").reverse = ['}'] from rfl, hfind2]
      show Int.ofNat ((pyStrip text).length - (pys "\x7d").length - suf.length) =
        Int.ofNat (pre.length + core.length + 1)
      rw [hnat]
    have hstop : (pyRfind (pyStrip text) (pys "\x7d") + 1).toNat =
        pre.length + core.length + 2 := by
      rw [hrfind]
      rfl
    have hshape2 : pyStrip text = pre ++ ('{' :: (core ++ ['}'])) ++ suf := by
      rw [hdecomp]
      simp
    have hslice : natSlice (pyStrip text) pre.length (pre.length + core.length + 2) =
        '{' :: (core ++ ['}']) := by
      have hn : pre.length + ('{' :: (core ++ ['}'])).length =
          pre.length + core.length + 2 := by
        simp only [List.length_cons, List.length_append, List.length_nil]
        omega
      rw [hshape2, ← hn]
      exact natSlice_of_append pre ('{' :: (core ++ ['}'])) suf
    unfold parse_oracle_reply parse_reply_text
    rw [if_neg (by rw [h]; exact Bool.false_ne_true), if_pos hin, hstart, hstop, hslice]
  · intro h
    have hnp : (pys "\x7b").isPrefixOf (pyStrip text) = false := by
      cases hb : (pys "\x7b").isPrefixOf (pyStrip text)
      · rfl
      · obtain ⟨t', ht'⟩ := isPrefixOf_brace_shape _ hb
        rw [pyIn, ht', show pys "\x7b" = ['{'] from rfl] at h
        rw [show findSub ('{' :: t') ['{'] = some 0 from by
          simp [findSub, List.isPrefixOf]] at h
        simp at h
    unfold parse_oracle_reply parse_reply_text
    rw [if_neg (by rw [hnp]; exact Bool.false_ne_true),
      if_neg (by rw [h]; exact Bool.false_ne_true)]

/-- Witness for C8 on Scenario D: commentary around an embedded object,
parsed through the first-brace-to-last-brace heuristic, yielding
`accept = false`. -/
theorem claim_C8_witness :
    parse_oracle_reply
        (pys "Sure, here you go: \x7b\"accept\": false, \"reason\": \"low value\"\x7d Thanks!") =
      PyVal.dict [(pys "accept", PyVal.bool false),
                  (pys "reason", PyVal.str (pys "low value"))] ∧
    lookupKey [(pys "accept", PyVal.bool false),
               (pys "reason", PyVal.str (pys "low value"))] (pys "accept") =
      some (PyVal.bool false) := by
  have h := (claim_C8_reply_policy
    (pys "Sure, here you go: \x7b\"accept\": false, \"reason\": \"low value\"\x7d Thanks!")
    (pys "Sure, here you go: ")
    (pys "\"accept\": false, \"reason\": \"low value\"")
    (pys " Thanks!")).2.1 rfl rfl (by decide) (by decide)
  rw [h]
  exact ⟨rfl, rfl⟩

end Negotiator
